import Mathlib

/-!
# Shallow embedding of the `spf-validator` core (src/routes/api/spf.ts, src/lib/dns.ts)

This file embeds the SPF-record parser, the rule set, the recursive
expansion engine, the DNS resolver fallback chain, and the HTTP handler's
input validation as executable Lean definitions, and proves the spec's
claims about them.

Modelling conventions:
* JavaScript strings are Lean `String`s; the JS string operations used by
  the source (`trim`, `split(/\s+/)`, `toLowerCase`, `indexOf`, `slice`,
  `startsWith`) are re-implemented over `String.data` (`List Char`) with
  the ASCII semantics the source relies on.
* Network I/O is abstracted by an oracle `dns : String → FetchSpfResult`
  standing for `fetchSpfRecord`; each call the engine makes to the oracle
  is recorded in a ghost trace (the list of fetched domains, in order).
* The mutable `LookupContext` is threaded explicitly through the
  recursion; JS `Set<string>` becomes a `List String` with membership.
* `performance.now()` timing is not modelled: `queryTime` is `0`.
* The engine's recursion is driven by a `fuel` parameter; the source's
  recursion is bounded by the lookup budget, so any `fuel` large enough
  never reaches the out-of-fuel branch (which returns a no-record result).
-/

/-- Issue severity, from `SpfValidationIssue.type : "error" | "warning"`. -/
inductive IssueType where
  | error
  | warning
deriving DecidableEq, Repr

/-- Embeds `SpfValidationIssue` from src/routes/api/spf.ts. -/
structure SpfValidationIssue where
  type : IssueType
  message : String
deriving DecidableEq, Repr

mutual
/-- Embeds `SpfMechanism` (type, qualifier, value, optional expanded sub-result). -/
inductive SpfMechanism : Type where
  | mk (type : String) (qualifier : String) (value : String)
      (expanded : Option SpfResult) : SpfMechanism

/-- Embeds `SpfResult` (domain, record, version, mechanisms, lookupCount, issues, queryTime). -/
inductive SpfResult : Type where
  | mk (domain : String) (record : Option String) (version : Option String)
      (mechanisms : List SpfMechanism) (lookupCount : Nat)
      (issues : List SpfValidationIssue) (queryTime : Nat) : SpfResult
end

def SpfMechanism.type : SpfMechanism → String
  | .mk t _ _ _ => t

def SpfMechanism.qualifier : SpfMechanism → String
  | .mk _ q _ _ => q

def SpfMechanism.value : SpfMechanism → String
  | .mk _ _ v _ => v

def SpfMechanism.expanded : SpfMechanism → Option SpfResult
  | .mk _ _ _ e => e

def SpfResult.domain : SpfResult → String
  | .mk d _ _ _ _ _ _ => d

def SpfResult.record : SpfResult → Option String
  | .mk _ r _ _ _ _ _ => r

def SpfResult.version : SpfResult → Option String
  | .mk _ _ v _ _ _ _ => v

def SpfResult.mechanisms : SpfResult → List SpfMechanism
  | .mk _ _ _ ms _ _ _ => ms

def SpfResult.lookupCount : SpfResult → Nat
  | .mk _ _ _ _ c _ _ => c

def SpfResult.issues : SpfResult → List SpfValidationIssue
  | .mk _ _ _ _ _ is _ => is

def SpfResult.queryTime : SpfResult → Nat
  | .mk _ _ _ _ _ _ t => t

/-! ## JS string operations (ASCII semantics) -/

/-- JS whitespace as used by `trim` / `\s` on the ASCII range. -/
def isJsWs (c : Char) : Bool :=
  c = ' ' || c = '\t' || c = '\n' || c = '\r' || c = '\x0b' || c = '\x0c'

/-- `String.prototype.trim`. -/
def jsTrim (s : String) : String :=
  String.mk (((s.data.dropWhile isJsWs).reverse.dropWhile isJsWs).reverse)

/-- `String.prototype.toLowerCase` on the ASCII range. -/
def jsToLower (s : String) : String :=
  String.mk (s.data.map Char.toLower)

/-- Split a character list into maximal runs of non-whitespace characters. -/
def wsRuns (l : List Char) : List String :=
  ((l.splitOnP isJsWs).filter (fun p => p ≠ [])).map String.mk

/-- `record.trim().split(/\s+/)`: for a trimmed input, the regex split
yields the maximal non-whitespace runs; JS `split` on the empty string
yields `[""]`, never the empty array. -/
def jsTrimSplitWs (s : String) : List String :=
  let runs := wsRuns (jsTrim s).data
  if runs.isEmpty then [""] else runs

/-- `String.prototype.startsWith` (prefix test on characters). -/
def jsStartsWith (s : String) (pre : String) : Bool :=
  go s.data pre.data
where
  go : List Char → List Char → Bool
    | _, [] => true
    | [], _ :: _ => false
    | a :: as, b :: bs => a = b && go as bs

/-- `String.prototype.indexOf` for a single-character needle: the index of
the first occurrence, or `-1`. -/
def jsIndexOf (l : List Char) (c : Char) : Int :=
  go l 0
where
  go : List Char → Nat → Int
    | [], _ => -1
    | d :: ds, i => if d = c then (i : Int) else go ds (i + 1)

/-! ## SPF parser (`parseSpfRecord`, src/routes/api/spf.ts lines 127–236) -/

/-- The separator logic of the parser's loop body (lines 164–182), on
the term after the qualifier was stripped: split on the first `:` at
index > 0, else the first `/` at index > 0 (the `/` stays in the value),
else any `=` (any index, value after it), else a bare name. -/
def parseTermCore (qualifier : String) (term : List Char) : SpfMechanism :=
  if jsIndexOf term ':' > 0 then
    .mk (jsToLower (String.mk (term.take (jsIndexOf term ':').toNat))) qualifier
      (String.mk (term.drop ((jsIndexOf term ':').toNat + 1))) none
  else if jsIndexOf term '/' > 0 then
    .mk (jsToLower (String.mk (term.take (jsIndexOf term '/').toNat))) qualifier
      (String.mk (term.drop (jsIndexOf term '/').toNat)) none
  else if jsIndexOf term '=' ≥ 0 then
    .mk (jsToLower (String.mk (term.take (jsIndexOf term '=').toNat))) qualifier
      (String.mk (term.drop ((jsIndexOf term '=').toNat + 1))) none
  else
    .mk (jsToLower (String.mk term)) qualifier "" none

/-- The loop body of `parseSpfRecord` for one (trimmed, non-empty) token
(lines 156–184): optional qualifier in `{+,-,~,?}` (default `+`), then
the separator split of `parseTermCore`. -/
def parseTerm (part : String) : SpfMechanism :=
  match part.data with
  | c :: cs =>
    if c = '+' || c = '-' || c = '~' || c = '?' then
      parseTermCore (String.mk [c]) cs
    else parseTermCore "+" (c :: cs)
  | [] => parseTermCore "+" []

/-- The deprecation warning emitted for a `ptr` mechanism. -/
def ptrWarning : SpfValidationIssue :=
  ⟨.warning, "\"ptr\" mechanism is deprecated (RFC 7208 Section 5.5)"⟩

/-- The token loop of `parseSpfRecord` (lines 152–192): skip empty tokens,
parse each term, and emit the `ptr` deprecation warning in order. -/
def processParts : List String → List SpfMechanism × List SpfValidationIssue
  | [] => ([], [])
  | p :: rest =>
    let part := jsTrim p
    if part = "" then processParts rest
    else
      let m := parseTerm part
      let (ms, is) := processParts rest
      (m :: ms, (if m.type = "ptr" then [ptrWarning] else []) ++ is)

/-- `MAX_DNS_LOOKUPS` from the source. -/
def MAX_DNS_LOOKUPS : Nat := 10

def allNotLastWarning : SpfValidationIssue :=
  ⟨.warning, "\"all\" mechanism should be the last term in the record"⟩

def noAllWarning : SpfValidationIssue :=
  ⟨.warning, "No \"all\" mechanism found. Consider adding \"-all\" or \"~all\" at the end"⟩

def multipleRedirectError : SpfValidationIssue :=
  ⟨.error, "Multiple \"redirect\" modifiers found (only one allowed)"⟩

def redirectAndAllWarning : SpfValidationIssue :=
  ⟨.warning, "Both \"redirect\" and \"all\" present. \"redirect\" is ignored when \"all\" is present"⟩

def recordLengthWarning (len : Nat) : SpfValidationIssue :=
  ⟨.warning, "Record exceeds 255 characters (" ++ toString len
    ++ " chars). Will be split into " ++ toString ((len + 254) / 255)
    ++ " TXT strings"⟩

/-- The rule set of `parseSpfRecord` (lines 194–233): issues appended
after the token loop, in source order. `Math.ceil(length / 255)` on the
(natural-number) length is `(length + 254) / 255`. -/
def ruleIssues (record : String) (mechanisms : List SpfMechanism) :
    List SpfValidationIssue :=
  let allIndex := mechanisms.findIdx? (fun m => m.type = "all")
  let redirectCount := (mechanisms.filter (fun m => m.type = "redirect")).length
  (match allIndex with
   | some i => if i ≠ mechanisms.length - 1 then [allNotLastWarning] else []
   | none => [])
  ++ (match allIndex with
   | some _ => []
   | none => [noAllWarning])
  ++ (if redirectCount > 1 then [multipleRedirectError] else [])
  ++ (if redirectCount > 0 && allIndex.isSome then [redirectAndAllWarning] else [])
  ++ (if record.length > 255 then [recordLengthWarning record.length] else [])

/-- Output type of `parseSpfRecord`. -/
structure ParseOutput where
  version : Option String
  mechanisms : List SpfMechanism
  issues : List SpfValidationIssue

def invalidVersionMessage (p0 : String) : String :=
  "Invalid version: expected \"v=spf1\", got \"" ++ p0 ++ "\""

/-- Embeds `parseSpfRecord` (lines 127–236). -/
def parseSpfRecord (record : String) : ParseOutput :=
  match jsTrimSplitWs record with
  | [] => ⟨none, [], [⟨.error, "Empty SPF record"⟩]⟩
  | p0 :: rest =>
    if jsStartsWith (jsToLower p0) "v=spf1" = false then
      ⟨none, [], [⟨.error, invalidVersionMessage p0⟩]⟩
    else
      let (mechanisms, loopIssues) := processParts rest
      ⟨some "spf1", mechanisms, loopIssues ++ ruleIssues record mechanisms⟩

example : (parseSpfRecord "v=spf1 ip4:192.0.2.0/24 include:_spf.example.com -all").mechanisms
    = [.mk "ip4" "+" "192.0.2.0/24" none,
       .mk "include" "+" "_spf.example.com" none,
       .mk "all" "-" "" none] := by rfl

example : (parseSpfRecord "v=spf1 ip4:192.0.2.0/24 include:_spf.example.com -all").issues = [] := by
  decide

example : (parseSpfRecord "spf1 -all").issues
    = [⟨.error, invalidVersionMessage "spf1"⟩] := by decide

example : (parseSpfRecord "v=spf1 a/24 ptr =x").mechanisms
    = [.mk "a" "+" "/24" none, .mk "ptr" "+" "" none, .mk "" "+" "x" none] := by rfl

/-! ## Expansion engine (`expandMechanism` / `lookupSpf`, lines 238–366) -/

/-- Embeds `LookupContext`: the shared mutable counter, ceiling and
visited set threaded through the whole expansion tree. -/
structure LookupContext where
  count : Nat
  maxLookups : Nat
  visited : List String
deriving DecidableEq, Repr

/-- `Set.add`: insert if not already present. -/
def setAdd (s : List String) (x : String) : List String :=
  if s.contains x then s else x :: s

/-- Embeds `FetchSpfResult` (the `totalTxtRecords` field is folded into
the prepared `error` message, as the engine only reads these two). -/
structure FetchSpfResult where
  record : Option String
  error : Option String
deriving DecidableEq, Repr

/-- A DNS oracle standing for `fetchSpfRecord` (network I/O abstracted). -/
def DnsOracle : Type := String → FetchSpfResult

/-- `LOOKUP_MECHANISMS` from the source. -/
def LOOKUP_MECHANISMS : List String :=
  ["include", "a", "mx", "ptr", "exists", "redirect"]

/-- The sub-result attached when an `include`/`redirect` has no target value. -/
def missingDomainResult : SpfResult :=
  .mk "" none none [] 0 [⟨.error, "Missing domain for include/redirect"⟩] 0

/-- The sub-result attached when the target domain is already in `visited`. -/
def circularResult (targetDomain : String) : SpfResult :=
  .mk targetDomain none none [] 0
    [⟨.error, "Circular reference detected: " ++ targetDomain⟩] 0

/-- The sub-result attached when the incremented counter exceeds the budget. -/
def limitResult (targetDomain : String) (maxLookups : Nat) : SpfResult :=
  .mk targetDomain none none [] 0
    [⟨.error, "DNS lookup limit exceeded (" ++ toString maxLookups ++ ")"⟩] 0

/-- The engine's state after a step: the produced value, the threaded
context, and the ghost trace of domains fetched during the step. -/
abbrev EngineOut (α : Type) := α × LookupContext × List String

/-- The body of `expandMechanism` (lines 238–320), with the recursive
`lookupSpf` call abstracted as `lookup`.  JS truthiness: `!targetDomain`
is target `= ""`; the source's `targetDomain`, `ctx1` and `ctx2` locals
are inlined. -/
def expandMechanismGo
    (lookup : String → LookupContext → EngineOut SpfResult)
    (m : SpfMechanism) (ctx : LookupContext) : EngineOut SpfMechanism :=
  if LOOKUP_MECHANISMS.contains m.type = false then
    (m, ctx, [])
  else if m.type ≠ "include" && m.type ≠ "redirect" then
    (m, { ctx with count := ctx.count + 1 }, [])
  else if m.value = "" then
    (.mk m.type m.qualifier m.value (some missingDomainResult), ctx, [])
  else if ctx.visited.contains (jsToLower m.value) then
    (.mk m.type m.qualifier m.value (some (circularResult m.value)), ctx, [])
  else if ctx.count + 1 > ctx.maxLookups then
    (.mk m.type m.qualifier m.value (some (limitResult m.value ctx.maxLookups)),
      { ctx with count := ctx.count + 1 }, [])
  else
    match lookup m.value
        { ctx with
          count := ctx.count + 1,
          visited := setAdd ctx.visited (jsToLower m.value) } with
    | (res, ctx3, tr) => (.mk m.type m.qualifier m.value (some res), ctx3, tr)

/-- The `for`-loop of `lookupSpf` over the parsed mechanisms (lines
351–355): strictly sequential, in source order, threading the context. -/
def expandListGo
    (lookup : String → LookupContext → EngineOut SpfResult) :
    List SpfMechanism → LookupContext → EngineOut (List SpfMechanism)
  | [], ctx => ([], ctx, [])
  | m :: ms, ctx =>
    let (em, ctx1, tr1) := expandMechanismGo lookup m ctx
    let (ems, ctx2, tr2) := expandListGo lookup ms ctx1
    (em :: ems, ctx2, tr1 ++ tr2)

/-- The error message of the no-record return: JS `||` treats the empty
string as falsy, so an empty `error` message also falls back to the
default. -/
def noRecordMessage (domain : String) (fetchError : Option String) : String :=
  match fetchError with
  | some e => if e = "" then "No SPF record found for " ++ domain else e
  | none => "No SPF record found for " ++ domain

/-- The no-record return of `lookupSpf` (lines 331–344). -/
def noRecordResult (domain : String) (ctx : LookupContext)
    (fetchError : Option String) : SpfResult :=
  .mk domain none none [] ctx.count [⟨.error, noRecordMessage domain fetchError⟩] 0

/-- Embeds `lookupSpf` (lines 322–366): fetch, parse, then expand each
mechanism in order.  `fuel` drives the recursion; the out-of-fuel branch
is unreachable for sufficient fuel because every nested call strictly
increases the bounded counter first.  The trace records each
`fetchSpfRecord` call made, in order. -/
def lookupSpf (dns : DnsOracle) :
    Nat → String → LookupContext → EngineOut SpfResult
  | 0, domain, ctx => (noRecordResult domain ctx none, ctx, [])
  | fuel + 1, domain, ctx =>
    let spfResult := dns domain
    match spfResult.record with
    | none => (noRecordResult domain ctx spfResult.error, ctx, [domain])
    | some record =>
      if record = "" then
        (noRecordResult domain ctx spfResult.error, ctx, [domain])
      else
        let parsed := parseSpfRecord record
        let (expandedMechanisms, ctx', tr) :=
          expandListGo (fun d c => lookupSpf dns fuel d c) parsed.mechanisms ctx
        (.mk domain (some record) parsed.version expandedMechanisms ctx'.count
          parsed.issues 0, ctx', domain :: tr)

/-- `expandMechanism` with its recursion instantiated at a given fuel. -/
def expandMechanism (dns : DnsOracle) (fuel : Nat)
    (m : SpfMechanism) (ctx : LookupContext) : EngineOut SpfMechanism :=
  expandMechanismGo (fun d c => lookupSpf dns fuel d c) m ctx

/-! ## DNS resolver fallback chain (`resolveTxt`, src/lib/dns.ts lines 130–174) -/

/-- Embeds `ResolverType` from src/lib/dns.ts. -/
inductive ResolverType where
  | native
  | google
  | cloudflare
deriving DecidableEq, Repr

/-- `DEFAULT_FALLBACK_RESOLVERS` from the source. -/
def DEFAULT_FALLBACK_RESOLVERS : List ResolverType := [.google, .cloudflare]

/-- A backend oracle standing for `resolverFunctions`: each backend call
either returns TXT records or fails with an error message. -/
def Backends : Type := ResolverType → String → Except String (List String)

/-- The fallback loop of `resolveTxt` (lines 162–172): try each backend
once, in order, returning the first success; remember the last error;
when the list is exhausted, fail with the last error (or the aggregate
message when no fallback was configured).  Also returns the ghost trace
of backends actually attempted, in order. -/
def resolveTxtFallback (backends : Backends) (domain : String) :
    List ResolverType → Option String → Except String (List String) × List ResolverType
  | [], lastError => (.error (lastError.getD "All DNS resolvers failed"), [])
  | b :: bs, _lastError =>
    match backends b domain with
    | .ok records => (.ok records, [b])
    | .error e =>
      let (res, tr) := resolveTxtFallback backends domain bs (some e)
      (res, b :: tr)

/-- Embeds `resolveTxt` (lines 130–174).  The `Promise.race` between the
native resolver and the timeout is abstracted by the oracle
`raceOutcome` (its error case covers both a native failure and the
`"DNS timeout"` rejection); wall-clock time is not modelled. -/
def resolveTxt (backends : Backends)
    (raceOutcome : Except String (List String))
    (resolver : ResolverType) (fallbackResolvers : List ResolverType)
    (domain : String) : Except String (List String) × List ResolverType :=
  if resolver ≠ .native then
    (backends resolver domain, [resolver])
  else
    match raceOutcome with
    | .ok records => (.ok records, [])
    | .error _ => resolveTxtFallback backends domain fallbackResolvers none

/-! ## HTTP handler (`handler.GET`, src/routes/api/spf.ts lines 368–422) -/

/-- One character of the class `[a-z0-9]`. -/
def isLowerDigit (c : Char) : Bool :=
  ('a' ≤ c && c ≤ 'z') || ('0' ≤ c && c ≤ '9')

/-- One character of the class `[a-z0-9.-]`. -/
def isLowerDigitDotDash (c : Char) : Bool :=
  isLowerDigit c || c = '.' || c = '-'

/-- Matcher for `^[a-z0-9][a-z0-9.-]*[a-z0-9]$` (anchored, so the string
needs at least two characters). -/
def matchesDomainRe (s : String) : Bool :=
  match s.data with
  | [] => false
  | [_] => false
  | c :: d :: ds => isLowerDigit c && matchesTail d ds
where
  matchesTail : Char → List Char → Bool
    | c, [] => isLowerDigit c
    | c, d :: ds => isLowerDigitDotDash c && matchesTail d ds

/-- The report-level annotation appended by the handler when the final
count exceeds the budget (lines 400–406). -/
def tooManyLookupsIssue (count : Nat) : SpfValidationIssue :=
  ⟨.error, "Too many DNS lookups: " ++ toString count
    ++ " (RFC 7208 allows max " ++ toString MAX_DNS_LOOKUPS ++ ")"⟩

/-- `result.issues.push(issue)`. -/
def SpfResult.pushIssue : SpfResult → SpfValidationIssue → SpfResult
  | .mk d r v ms c is t, i => .mk d r v ms c (is ++ [i]) t

/-- The handler's JSON envelope: HTTP status plus body fields. -/
structure HandlerResponse where
  status : Nat
  success : Bool
  result : Option SpfResult
  error : Option String

/-- Embeds `handler.GET` (lines 368–422) on its query parameters
(`searchParams.get` returns the first binding; JS treats the empty
string as falsy in `!domain`).  The embedding is exception-free, so the
`catch`/500 path of the source is unreachable here and not modelled. -/
def handleGET (dns : DnsOracle) (fuel : Nat)
    (params : List (String × String)) : HandlerResponse :=
  let domainParam := (params.find? (fun p => p.1 = "domain")).map Prod.snd
  match domainParam with
  | none => ⟨400, false, none, some "Domain is required"⟩
  | some d =>
    if d = "" then ⟨400, false, none, some "Domain is required"⟩
    else
      let cleanDomain := jsToLower (jsTrim d)
      if matchesDomainRe cleanDomain = false && cleanDomain.length > 1 then
        ⟨400, false, none, some "Invalid domain format"⟩
      else
        let lookupContext : LookupContext := ⟨0, MAX_DNS_LOOKUPS, [cleanDomain]⟩
        let (result, _, _) := lookupSpf dns fuel cleanDomain lookupContext
        let result' :=
          if result.lookupCount > MAX_DNS_LOOKUPS then
            result.pushIssue (tooManyLookupsIssue result.lookupCount)
          else result
        ⟨200, true, some result', none⟩

/-! ## Engine invariants: context threading, counter monotonicity, fetch budget -/

/-- The part of the shared counter that can still authorize fetches. -/
def ctxGauge (c : LookupContext) : Nat := min c.count c.maxLookups

/-- Invariant contract for a recursive lookup function: it preserves the
ceiling, never decreases the counter, and performs at most
`1 + (gauge increase)` fetches. -/
def LookupBound (lookup : String → LookupContext → EngineOut SpfResult) : Prop :=
  ∀ d c r c' tr, lookup d c = (r, c', tr) →
    c'.maxLookups = c.maxLookups ∧ c.count ≤ c'.count ∧
    tr.length + min c.count c.maxLookups ≤ 1 + min c'.count c.maxLookups

theorem expandMechanismGo_bound
    (lookup : String → LookupContext → EngineOut SpfResult)
    (h : LookupBound lookup) :
    ∀ m c em c' tr, expandMechanismGo lookup m c = (em, c', tr) →
      c'.maxLookups = c.maxLookups ∧ c.count ≤ c'.count ∧
      tr.length + min c.count c.maxLookups ≤ min c'.count c.maxLookups := by
  intro m c em c' tr heq
  unfold expandMechanismGo at heq
  split at heq
  · simp only [Prod.mk.injEq] at heq
    obtain ⟨rfl, rfl, rfl⟩ := heq
    exact ⟨rfl, le_refl _, by simp⟩
  split at heq
  · simp only [Prod.mk.injEq] at heq
    obtain ⟨rfl, rfl, rfl⟩ := heq
    refine ⟨rfl, by simp, ?_⟩
    simp only [List.length_nil, Nat.zero_add]
    exact min_le_min (by simp) (le_refl _)
  split at heq
  · simp only [Prod.mk.injEq] at heq
    obtain ⟨rfl, rfl, rfl⟩ := heq
    exact ⟨rfl, le_refl _, by simp⟩
  split at heq
  · simp only [Prod.mk.injEq] at heq
    obtain ⟨rfl, rfl, rfl⟩ := heq
    exact ⟨rfl, le_refl _, by simp⟩
  split at heq
  · rename_i hover
    simp only [Prod.mk.injEq] at heq
    obtain ⟨rfl, rfl, rfl⟩ := heq
    simp only [gt_iff_lt] at hover
    refine ⟨rfl, by simp, ?_⟩
    simp only [List.length_nil, Nat.zero_add]
    omega
  · rename_i hover
    rcases hl : lookup m.value
        { c with
          count := c.count + 1,
          visited := setAdd c.visited (jsToLower m.value) } with ⟨res, c3, tr3⟩
    rw [hl] at heq
    simp only [Prod.mk.injEq] at heq
    obtain ⟨rfl, rfl, rfl⟩ := heq
    obtain ⟨hmax, hmono, hbound⟩ := h _ _ _ _ _ hl
    simp only [gt_iff_lt, not_lt] at hover
    simp only at hmax hmono hbound
    refine ⟨hmax, by omega, ?_⟩
    omega

theorem expandListGo_bound
    (lookup : String → LookupContext → EngineOut SpfResult)
    (h : LookupBound lookup) :
    ∀ ms c ems c' tr, expandListGo lookup ms c = (ems, c', tr) →
      c'.maxLookups = c.maxLookups ∧ c.count ≤ c'.count ∧
      tr.length + min c.count c.maxLookups ≤ min c'.count c.maxLookups := by
  intro ms
  induction ms with
  | nil =>
    intro c ems c' tr heq
    simp only [expandListGo, Prod.mk.injEq] at heq
    obtain ⟨rfl, rfl, rfl⟩ := heq
    exact ⟨rfl, le_refl _, by simp⟩
  | cons m rest ih =>
    intro c ems c' tr heq
    rcases h1 : expandMechanismGo lookup m c with ⟨em, c1, tr1⟩
    rcases h2 : expandListGo lookup rest c1 with ⟨ems2, c2, tr2⟩
    simp only [expandListGo, h1, h2, Prod.mk.injEq] at heq
    obtain ⟨rfl, rfl, rfl⟩ := heq
    obtain ⟨hm1, hm2, hm3⟩ := expandMechanismGo_bound lookup h m c em c1 tr1 h1
    obtain ⟨hl1, hl2, hl3⟩ := ih c1 ems2 c2 tr2 h2
    rw [hm1] at hl1 hl3
    refine ⟨hl1, le_trans hm2 hl2, ?_⟩
    simp only [List.length_append]
    omega

theorem lookupSpf_bound (dns : DnsOracle) :
    ∀ fuel, LookupBound (fun d c => lookupSpf dns fuel d c) := by
  intro fuel
  induction fuel with
  | zero =>
    intro d c r c' tr heq
    simp only [lookupSpf, Prod.mk.injEq] at heq
    obtain ⟨rfl, rfl, rfl⟩ := heq
    exact ⟨rfl, le_refl _, by simp⟩
  | succ f ih =>
    intro d c r c' tr heq
    simp only [lookupSpf] at heq
    rcases hrec : (dns d).record with _ | record
    · rw [hrec] at heq
      simp only [Prod.mk.injEq] at heq
      obtain ⟨rfl, rfl, rfl⟩ := heq
      exact ⟨rfl, le_refl _, by simp⟩
    · rw [hrec] at heq
      simp only at heq
      split at heq
      · simp only [Prod.mk.injEq] at heq
        obtain ⟨rfl, rfl, rfl⟩ := heq
        exact ⟨rfl, le_refl _, by simp⟩
      · rcases hE : expandListGo (fun d c => lookupSpf dns f d c)
            (parseSpfRecord record).mechanisms c with ⟨ems, c2, tr2⟩
        rw [hE] at heq
        simp only [Prod.mk.injEq] at heq
        obtain ⟨rfl, rfl, rfl⟩ := heq
        obtain ⟨hl1, hl2, hl3⟩ := expandListGo_bound _ ih _ _ _ _ _ hE
        refine ⟨hl1, hl2, ?_⟩
        simp only [List.length_cons]
        omega

/-! ## Concrete DNS oracles used by witnesses and counterexamples -/

/-- An oracle with no TXT records anywhere. -/
def dnsNone : DnsOracle := fun _ => ⟨none, some "No TXT records found"⟩

/-- An oracle whose record for `example.com` has twelve `a` mechanisms. -/
def dns12 : DnsOracle := fun d =>
  if d = "example.com" then ⟨some "v=spf1 a a a a a a a a a a a a", none⟩
  else ⟨none, some "No TXT records found"⟩

/-- C1 (amended): for every top-level validation request (counter 0,
ceiling `MAX_DNS_LOOKUPS = 10`), the total number of DNS fetches over
the whole expansion tree — the top-level fetch included — never exceeds
`maxLookups + 1 = 11`; and an include/redirect whose increment tips the
counter past `maxLookups` is counted (counter incremented) but never
fetched (empty fetch trace, budget-error sub-result attached).  The
original claim's bound on the *counted* mechanisms is false — see the
counterexample: `a`/`mx`/`ptr`/`exists` mechanisms and over-budget
include/redirect mechanisms are counted without any cap. -/
theorem spf_C1_fetch_budget :
    (∀ (dns : DnsOracle) (fuel : Nat) (domain : String) (visited : List String),
      ((lookupSpf dns fuel domain ⟨0, MAX_DNS_LOOKUPS, visited⟩).2.2).length
        ≤ MAX_DNS_LOOKUPS + 1) ∧
    (∀ (dns : DnsOracle) (fuel : Nat) (m : SpfMechanism) (c : LookupContext),
      (m.type = "include" ∨ m.type = "redirect") → m.value ≠ "" →
      c.visited.contains (jsToLower m.value) = false →
      c.maxLookups < c.count + 1 →
      expandMechanism dns fuel m c =
        (.mk m.type m.qualifier m.value (some (limitResult m.value c.maxLookups)),
          { c with count := c.count + 1 }, [])) := by
  constructor
  · intro dns fuel domain visited
    rcases heq : lookupSpf dns fuel domain ⟨0, MAX_DNS_LOOKUPS, visited⟩ with ⟨r, c', tr⟩
    obtain ⟨-, -, hb⟩ := lookupSpf_bound dns fuel domain _ r c' tr heq
    simp only [MAX_DNS_LOOKUPS] at hb ⊢
    omega
  · intro dns fuel m c htype hval hvis hover
    cases m with
    | mk t q v e =>
      simp only [SpfMechanism.type] at htype
      simp only [SpfMechanism.value] at hval
      rcases htype with rfl | rfl <;>
        simp_all [expandMechanism, expandMechanismGo, LOOKUP_MECHANISMS,
          SpfMechanism.type, SpfMechanism.value, SpfMechanism.qualifier]

/-- Witness for C1 (amended): concrete instantiation of both conjuncts;
an include at counter 10/10 is counted to 11 but performs no fetch. -/
theorem spf_C1_fetch_budget_witness :
    ((lookupSpf dnsNone 3 "example.com" ⟨0, MAX_DNS_LOOKUPS, ["example.com"]⟩).2.2).length
      ≤ MAX_DNS_LOOKUPS + 1 ∧
    expandMechanism dnsNone 0 (.mk "include" "+" "x.com" none) ⟨10, 10, []⟩ =
      (.mk "include" "+" "x.com" (some (limitResult "x.com" 10)), ⟨11, 10, []⟩, []) :=
  ⟨spf_C1_fetch_budget.1 dnsNone 3 "example.com" ["example.com"],
   spf_C1_fetch_budget.2 dnsNone 0 (.mk "include" "+" "x.com" none) ⟨10, 10, []⟩
     (Or.inl rfl) (by decide) (by rfl) (by decide)⟩

/-- Counterexample to C1 as stated: for the record
`"v=spf1 a a a a a a a a a a a a"` (twelve `a` mechanisms) every `a` is
counted toward the shared counter with no cap, so the number of counted
lookup-consuming mechanisms is 12, exceeding `maxLookups + 1 = 11`. -/
theorem spf_C1_counterexample :
    ((lookupSpf dns12 11 "example.com" ⟨0, MAX_DNS_LOOKUPS, ["example.com"]⟩).1).lookupCount = 12
    ∧ ¬(12 ≤ MAX_DNS_LOOKUPS + 1) := by
  exact ⟨by rfl, by decide⟩

/-! ## Nested lookupCount monotonicity (C2) -/

mutual
/-- Every `lookupCount` in this result is at most `bound`, and each
nested result is in turn below its parent's `lookupCount`. -/
def resBelow (bound : Nat) : SpfResult → Bool
  | .mk _ _ _ ms lc _ _ => Nat.ble lc bound && mechListBelow lc ms

def mechListBelow (bound : Nat) : List SpfMechanism → Bool
  | [] => true
  | m :: ms => mechBelow bound m && mechListBelow bound ms

def mechBelow (bound : Nat) : SpfMechanism → Bool
  | .mk _ _ _ none => true
  | .mk _ _ _ (some r) => resBelow bound r
end

theorem resBelow_mono {b b' : Nat} (h : b ≤ b') :
    ∀ r, resBelow b r = true → resBelow b' r = true := by
  intro r hr
  cases r with
  | mk d rec v ms lc is t =>
    simp only [resBelow, Bool.and_eq_true, Nat.ble_eq] at hr ⊢
    exact ⟨le_trans hr.1 h, hr.2⟩

theorem mechBelow_mono {b b' : Nat} (h : b ≤ b') :
    ∀ m, mechBelow b m = true → mechBelow b' m = true := by
  intro m hm
  cases m with
  | mk t q v e =>
    cases e with
    | none => simp [mechBelow]
    | some r => simpa [mechBelow] using resBelow_mono h r (by simpa [mechBelow] using hm)

theorem mechListBelow_mono {b b' : Nat} (h : b ≤ b') :
    ∀ ms, mechListBelow b ms = true → mechListBelow b' ms = true := by
  intro ms hms
  induction ms with
  | nil => simp [mechListBelow]
  | cons m rest ih =>
    simp only [mechListBelow, Bool.and_eq_true] at hms ⊢
    exact ⟨mechBelow_mono h m hms.1, ih hms.2⟩

/-- Every mechanism built by `parseTermCore` has no expansion attached. -/
theorem parseTermCore_expanded_none :
    ∀ q term, (parseTermCore q term).expanded = none := by
  intro q term
  unfold parseTermCore
  split
  · rfl
  split
  · rfl
  split
  · rfl
  · rfl

/-- Every mechanism built by `parseTerm` has no expansion attached yet. -/
theorem parseTerm_expanded_none : ∀ part, (parseTerm part).expanded = none := by
  intro part
  unfold parseTerm
  rcases hd : part.data with _ | ⟨c, cs⟩ <;> simp only [hd]
  · exact parseTermCore_expanded_none _ _
  · split <;> exact parseTermCore_expanded_none _ _

/-- All mechanisms coming out of the parser's token loop are unexpanded. -/
theorem processParts_expanded_none :
    ∀ parts m, m ∈ (processParts parts).1 → m.expanded = none := by
  intro parts
  induction parts with
  | nil => intro m hm; simp [processParts] at hm
  | cons p rest ih =>
    intro m hm
    by_cases hp : jsTrim p = ""
    · rw [processParts, if_pos hp] at hm
      exact ih m hm
    · rcases hrest : processParts rest with ⟨ms, is⟩
      rw [processParts, if_neg hp] at hm
      simp only [hrest, List.mem_cons] at hm
      rcases hm with rfl | hm
      · exact parseTerm_expanded_none _
      · exact ih m (by rw [hrest]; exact hm)

/-- Contract for a recursive lookup: counter monotone, the returned
node's `lookupCount` is the shared counter at its completion, and all
nested results sit below it. -/
def LookupMono (lookup : String → LookupContext → EngineOut SpfResult) : Prop :=
  ∀ d c r c' tr, lookup d c = (r, c', tr) →
    c.count ≤ c'.count ∧ r.lookupCount = c'.count ∧ resBelow c'.count r = true

/-- An unexpanded mechanism is below any bound. -/
theorem mechBelow_of_none : ∀ (b : Nat) (m : SpfMechanism),
    m.expanded = none → mechBelow b m = true := by
  intro b m hm
  cases m with
  | mk t q v e =>
    simp only [SpfMechanism.expanded] at hm
    subst hm
    simp [mechBelow]

/-- All mechanisms returned by `parseSpfRecord` are unexpanded. -/
theorem parseSpfRecord_expanded_none :
    ∀ record m, m ∈ (parseSpfRecord record).mechanisms → m.expanded = none := by
  intro record m hm
  unfold parseSpfRecord at hm
  rcases hsplit : jsTrimSplitWs record with _ | ⟨p0, rest⟩ <;>
    rw [hsplit] at hm <;> dsimp only at hm
  · simp at hm
  · split at hm
    · simp at hm
    · rcases hPP : processParts rest with ⟨ms0, is0⟩
      rw [hPP] at hm
      dsimp only at hm
      exact processParts_expanded_none rest m (by rw [hPP]; exact hm)

theorem expandMechanismGo_mono
    (lookup : String → LookupContext → EngineOut SpfResult)
    (h : LookupMono lookup) :
    ∀ m c em c' tr, m.expanded = none → expandMechanismGo lookup m c = (em, c', tr) →
      c.count ≤ c'.count ∧ mechBelow c'.count em = true := by
  intro m c em c' tr hnone heq
  unfold expandMechanismGo at heq
  split at heq
  · simp only [Prod.mk.injEq] at heq
    obtain ⟨rfl, rfl, rfl⟩ := heq
    exact ⟨le_refl _, mechBelow_of_none _ _ hnone⟩
  split at heq
  · simp only [Prod.mk.injEq] at heq
    obtain ⟨rfl, rfl, rfl⟩ := heq
    exact ⟨by simp, mechBelow_of_none _ _ hnone⟩
  split at heq
  · simp only [Prod.mk.injEq] at heq
    obtain ⟨rfl, rfl, rfl⟩ := heq
    exact ⟨le_refl _, by simp [mechBelow, missingDomainResult, resBelow, mechListBelow]⟩
  split at heq
  · simp only [Prod.mk.injEq] at heq
    obtain ⟨rfl, rfl, rfl⟩ := heq
    exact ⟨le_refl _, by simp [mechBelow, circularResult, resBelow, mechListBelow]⟩
  split at heq
  · simp only [Prod.mk.injEq] at heq
    obtain ⟨rfl, rfl, rfl⟩ := heq
    exact ⟨by simp, by simp [mechBelow, limitResult, resBelow, mechListBelow]⟩
  · rcases hl : lookup m.value
        { c with
          count := c.count + 1,
          visited := setAdd c.visited (jsToLower m.value) } with ⟨res, c3, tr3⟩
    rw [hl] at heq
    simp only [Prod.mk.injEq] at heq
    obtain ⟨rfl, rfl, rfl⟩ := heq
    obtain ⟨hm1, hm2, hm3⟩ := h _ _ _ _ _ hl
    simp only at hm1
    exact ⟨by omega, by simpa [mechBelow] using hm3⟩

theorem expandListGo_mono
    (lookup : String → LookupContext → EngineOut SpfResult)
    (h : LookupMono lookup) :
    ∀ ms c ems c' tr, (∀ m ∈ ms, m.expanded = none) →
      expandListGo lookup ms c = (ems, c', tr) →
      c.count ≤ c'.count ∧ mechListBelow c'.count ems = true := by
  intro ms
  induction ms with
  | nil =>
    intro c ems c' tr _ heq
    simp only [expandListGo, Prod.mk.injEq] at heq
    obtain ⟨rfl, rfl, rfl⟩ := heq
    exact ⟨le_refl _, by simp [mechListBelow]⟩
  | cons m rest ih =>
    intro c ems c' tr hnone heq
    rcases h1 : expandMechanismGo lookup m c with ⟨em, c1, tr1⟩
    rcases h2 : expandListGo lookup rest c1 with ⟨ems2, c2, tr2⟩
    simp only [expandListGo, h1, h2, Prod.mk.injEq] at heq
    obtain ⟨rfl, rfl, rfl⟩ := heq
    obtain ⟨hma, hmb⟩ :=
      expandMechanismGo_mono lookup h m c em c1 tr1 (hnone m (by simp)) h1
    obtain ⟨hla, hlb⟩ := ih c1 ems2 c2 tr2 (fun x hx => hnone x (by simp [hx])) h2
    refine ⟨le_trans hma hla, ?_⟩
    simp only [mechListBelow, Bool.and_eq_true]
    exact ⟨mechBelow_mono hla em hmb, hlb⟩

theorem lookupSpf_mono (dns : DnsOracle) :
    ∀ fuel, LookupMono (fun d c => lookupSpf dns fuel d c) := by
  intro fuel
  induction fuel with
  | zero =>
    intro d c r c' tr heq
    simp only [lookupSpf, Prod.mk.injEq] at heq
    obtain ⟨rfl, rfl, rfl⟩ := heq
    exact ⟨le_refl _,
      by simp [noRecordResult, SpfResult.lookupCount],
      by simp [noRecordResult, resBelow, mechListBelow]⟩
  | succ f ih =>
    intro d c r c' tr heq
    simp only [lookupSpf] at heq
    rcases hrec : (dns d).record with _ | record
    · rw [hrec] at heq
      simp only [Prod.mk.injEq] at heq
      obtain ⟨rfl, rfl, rfl⟩ := heq
      exact ⟨le_refl _,
        by simp [noRecordResult, SpfResult.lookupCount],
        by simp [noRecordResult, resBelow, mechListBelow]⟩
    · rw [hrec] at heq
      simp only at heq
      split at heq
      · simp only [Prod.mk.injEq] at heq
        obtain ⟨rfl, rfl, rfl⟩ := heq
        exact ⟨le_refl _,
          by simp [noRecordResult, SpfResult.lookupCount],
          by simp [noRecordResult, resBelow, mechListBelow]⟩
      · rcases hE : expandListGo (fun d c => lookupSpf dns f d c)
            (parseSpfRecord record).mechanisms c with ⟨ems, c2, tr2⟩
        rw [hE] at heq
        simp only [Prod.mk.injEq] at heq
        obtain ⟨rfl, rfl, rfl⟩ := heq
        obtain ⟨hla, hlb⟩ := expandListGo_mono _ ih _ c ems c2 tr2
          (fun m hm => parseSpfRecord_expanded_none record m hm) hE
        exact ⟨hla, by simp [SpfResult.lookupCount],
          by simp [resBelow, SpfResult.lookupCount, hlb]⟩

/-- Oracle for the C2 counterexample: `a.com` includes `b.com` then `c.com`. -/
def dnsABC : DnsOracle := fun d =>
  if d = "a.com" then ⟨some "v=spf1 include:b.com include:c.com -all", none⟩
  else if d = "b.com" then ⟨some "v=spf1 -all", none⟩
  else if d = "c.com" then ⟨some "v=spf1 -all", none⟩
  else ⟨none, some "No TXT records found"⟩

/-- C2 (amended): every node's `lookupCount` equals the shared counter's
value at the moment that node's entire expansion completed — its own
fetch *plus* the expansion of all its mechanisms — not at the moment its
fetch completed; synthetic sub-results (missing target, cycle, budget)
carry `lookupCount 0`.  Consequently, along any root-to-leaf path of
nested results the `lookupCount` values are monotonically
non-increasing (equivalently: non-decreasing in order of completion,
leaf before root), the opposite direction of the original claim — see
the counterexample. -/
theorem spf_C2_lookupCount :
    ∀ (dns : DnsOracle) (fuel : Nat) (d : String) (c : LookupContext),
      (lookupSpf dns fuel d c).1.lookupCount = (lookupSpf dns fuel d c).2.1.count ∧
      resBelow (lookupSpf dns fuel d c).1.lookupCount (lookupSpf dns fuel d c).1 = true := by
  intro dns fuel d c
  rcases heq : lookupSpf dns fuel d c with ⟨r, c', tr⟩
  obtain ⟨-, h2, h3⟩ := lookupSpf_mono dns fuel d c r c' tr heq
  exact ⟨h2, by rw [h2]; exact h3⟩

/-- Counterexample to C2 as stated: with `a.com` including `b.com` then
`c.com`, the root result's `lookupCount` is 2 (the counter after the
whole tree, not 0, the counter when the root's own fetch completed),
while the nested result for `b.com` — one step down the root-to-leaf
path — has `lookupCount` 1: the values strictly *decrease* from root to
leaf. -/
theorem spf_C2_counterexample :
    ((lookupSpf dnsABC 11 "a.com" ⟨0, MAX_DNS_LOOKUPS, ["a.com"]⟩).1).lookupCount = 2 ∧
    ((((lookupSpf dnsABC 11 "a.com" ⟨0, MAX_DNS_LOOKUPS,
        ["a.com"]⟩).1).mechanisms.headD (.mk "" "" "" none)).expanded.getD
          missingDomainResult).lookupCount = 1 ∧
    ¬(2 ≤ 1) :=
  ⟨by rfl, by rfl, by decide⟩

/-! ## C3: cycle detection; C4: include/redirect expansion protocol -/

/-- Oracle for the C3 cycle scenario: `a.com` includes `b.com`, and
`b.com` includes `a.com` back. -/
def dnsAB : DnsOracle := fun d =>
  if d = "a.com" then ⟨some "v=spf1 include:b.com -all", none⟩
  else if d = "b.com" then ⟨some "v=spf1 include:a.com -all", none⟩
  else ⟨none, some "No TXT records found"⟩

/-- The observable shape of a mechanism (everything but `expanded`). -/
def mechShape (m : SpfMechanism) : String × String × String :=
  (m.type, m.qualifier, m.value)

/-- Expansion never changes a mechanism's type, qualifier or value. -/
theorem expandMechanismGo_shape
    (lookup : String → LookupContext → EngineOut SpfResult) :
    ∀ m c, mechShape (expandMechanismGo lookup m c).1 = mechShape m := by
  intro m c
  unfold expandMechanismGo
  split
  · rfl
  split
  · rfl
  split
  · simp [mechShape, SpfMechanism.type, SpfMechanism.qualifier, SpfMechanism.value]
  split
  · simp [mechShape, SpfMechanism.type, SpfMechanism.qualifier, SpfMechanism.value]
  split
  · simp [mechShape, SpfMechanism.type, SpfMechanism.qualifier, SpfMechanism.value]
  · rcases hl : lookup m.value
        { c with
          count := c.count + 1,
          visited := setAdd c.visited (jsToLower m.value) } with ⟨res, c3, tr3⟩
    simp [hl, mechShape, SpfMechanism.type, SpfMechanism.qualifier, SpfMechanism.value]

/-- The mechanism loop processes mechanisms strictly in source order:
the output list has the same length and, position by position, the same
type/qualifier/value as the parsed input list. -/
theorem expandListGo_shape
    (lookup : String → LookupContext → EngineOut SpfResult) :
    ∀ ms c, ((expandListGo lookup ms c).1).map mechShape = ms.map mechShape := by
  intro ms
  induction ms with
  | nil => intro c; simp [expandListGo]
  | cons m rest ih =>
    intro c
    rcases h1 : expandMechanismGo lookup m c with ⟨em, c1, tr1⟩
    rcases h2 : expandListGo lookup rest c1 with ⟨ems2, c2, tr2⟩
    simp only [expandListGo, h1, h2, List.map_cons]
    have hshape := expandMechanismGo_shape lookup m c
    rw [h1] at hshape
    simp only at hshape
    rw [hshape]
    have := ih c1
    rw [h2] at this
    simpa using this

/-- C3: a mechanism whose (lower-cased) target is already in the shared
visited set is never fetched: the counter is untouched, the fetch trace
is empty, and the attached sub-result carries exactly one cycle-detected
error.  Concretely, with `a.com` ↔ `b.com` mutually including each
other, expanding from `a.com` (visited seeded with `a.com`) fetches
`a.com` exactly once and `b.com` once, and the `include:a.com`
mechanism inside the sub-result for `b.com` carries the single
`Circular reference detected: a.com` error. -/
theorem spf_C3_cycle :
    (∀ (dns : DnsOracle) (fuel : Nat) (m : SpfMechanism) (c : LookupContext),
      (m.type = "include" ∨ m.type = "redirect") → m.value ≠ "" →
      c.visited.contains (jsToLower m.value) = true →
      expandMechanism dns fuel m c =
        (.mk m.type m.qualifier m.value (some (circularResult m.value)), c, []) ∧
      (circularResult m.value).issues =
        [⟨.error, "Circular reference detected: " ++ m.value⟩]) ∧
    ((lookupSpf dnsAB 11 "a.com" ⟨0, MAX_DNS_LOOKUPS, ["a.com"]⟩).2.2
        = ["a.com", "b.com"] ∧
      ((lookupSpf dnsAB 11 "a.com" ⟨0, MAX_DNS_LOOKUPS, ["a.com"]⟩).2.2).count "a.com" = 1 ∧
      ((((lookupSpf dnsAB 11 "a.com" ⟨0, MAX_DNS_LOOKUPS,
          ["a.com"]⟩).1).mechanisms.headD (.mk "" "" "" none)).expanded.getD
            missingDomainResult).mechanisms.headD (.mk "" "" "" none)
        = .mk "include" "+" "a.com" (some (circularResult "a.com")) ∧
      (circularResult "a.com").issues =
        [⟨.error, "Circular reference detected: a.com"⟩]) := by
  constructor
  · intro dns fuel m c htype hval hvis
    refine ⟨?_, by simp [circularResult, SpfResult.issues]⟩
    cases m with
    | mk t q v e =>
      simp only [SpfMechanism.type] at htype
      simp only [SpfMechanism.value] at hval
      rcases htype with rfl | rfl <;>
        simp_all [expandMechanism, expandMechanismGo, LOOKUP_MECHANISMS,
          SpfMechanism.type, SpfMechanism.value, SpfMechanism.qualifier]
  · exact ⟨by rfl, by rfl, by rfl, by rfl⟩

/-- Witness for C3's hypothesised conjunct: an `include` whose target is
in the visited set is short-circuited with the cycle sub-result. -/
theorem spf_C3_cycle_witness :
    expandMechanism dnsNone 5 (.mk "include" "+" "x.com" none) ⟨4, 10, ["x.com"]⟩ =
      (.mk "include" "+" "x.com" (some (circularResult "x.com")), ⟨4, 10, ["x.com"]⟩, []) :=
  (spf_C3_cycle.1 dnsNone 5 (.mk "include" "+" "x.com" none) ⟨4, 10, ["x.com"]⟩
    (Or.inl rfl) (by decide) (by rfl)).1

/-- C4: the include/redirect protocol of `expandMechanism`, case by case:
a missing (empty) target attaches a single-error sub-result with no
counter increment; otherwise (target not in the visited set) the counter
is incremented, and if the incremented count exceeds `maxLookups` a
single budget-exceeded-error sub-result is attached without fetching;
otherwise the (lower-cased) target is added to the visited set and
`lookupSpf` recurses on it, its `Result` attached to the mechanism.
Mechanisms are processed strictly in source order (the expanded list
matches the parsed list position by position). -/
theorem spf_C4_expand_protocol :
    (∀ (dns : DnsOracle) (fuel : Nat) (m : SpfMechanism) (c : LookupContext),
      (m.type = "include" ∨ m.type = "redirect") →
      ((m.value = "" →
        expandMechanism dns fuel m c =
          (.mk m.type m.qualifier m.value (some missingDomainResult), c, []) ∧
        missingDomainResult.issues =
          [⟨.error, "Missing domain for include/redirect"⟩]) ∧
      (m.value ≠ "" → c.visited.contains (jsToLower m.value) = false →
        ((c.maxLookups < c.count + 1 →
          expandMechanism dns fuel m c =
            (.mk m.type m.qualifier m.value (some (limitResult m.value c.maxLookups)),
              { c with count := c.count + 1 }, []) ∧
          (limitResult m.value c.maxLookups).issues =
            [⟨.error, "DNS lookup limit exceeded ("
                ++ toString c.maxLookups ++ ")"⟩]) ∧
        (c.count + 1 ≤ c.maxLookups →
          expandMechanism dns fuel m c =
            (match lookupSpf dns fuel m.value
                { c with
                  count := c.count + 1,
                  visited := setAdd c.visited (jsToLower m.value) } with
             | (res, c3, tr) =>
                (.mk m.type m.qualifier m.value (some res), c3, tr))))))) ∧
    (∀ (lookup : String → LookupContext → EngineOut SpfResult)
        (ms : List SpfMechanism) (c : LookupContext),
      ((expandListGo lookup ms c).1).map mechShape = ms.map mechShape) := by
  constructor
  · intro dns fuel m c htype
    cases m with
    | mk t q v e =>
      simp only [SpfMechanism.type] at htype
      refine ⟨fun hval => ⟨?_, by simp [missingDomainResult, SpfResult.issues]⟩,
        fun hval hvis => ⟨fun hover => ⟨?_, by simp [limitResult, SpfResult.issues]⟩,
          fun hok => ?_⟩⟩
      · rcases htype with rfl | rfl <;>
          simp_all [expandMechanism, expandMechanismGo, LOOKUP_MECHANISMS,
            SpfMechanism.type, SpfMechanism.value, SpfMechanism.qualifier]
      · rcases htype with rfl | rfl <;>
          simp_all [expandMechanism, expandMechanismGo, LOOKUP_MECHANISMS,
            SpfMechanism.type, SpfMechanism.value, SpfMechanism.qualifier]
      · have hnotover : ¬(c.count + 1 > c.maxLookups) := by omega
        rcases htype with rfl | rfl <;>
          simp_all [expandMechanism, expandMechanismGo, LOOKUP_MECHANISMS,
            SpfMechanism.type, SpfMechanism.value, SpfMechanism.qualifier]
  · exact expandListGo_shape

/-- Witness for C4: a within-budget `include` recurses into `lookupSpf`
with the counter incremented and the target added to the visited set. -/
theorem spf_C4_expand_protocol_witness :
    expandMechanism dnsNone 1 (.mk "include" "+" "b.org" none) ⟨0, 10, ["a.org"]⟩ =
      (match lookupSpf dnsNone 1 "b.org"
          ⟨0 + 1, 10, setAdd ["a.org"] (jsToLower "b.org")⟩ with
       | (res, c3, tr) => (.mk "include" "+" "b.org" (some res), c3, tr)) :=
  ((spf_C4_expand_protocol.1 dnsNone 1 (.mk "include" "+" "b.org" none)
      ⟨0, 10, ["a.org"]⟩ (Or.inl rfl)).2 (by decide) (by rfl)).2 (by decide)

/-! ## C5: token splitting -/

theorem jsIndexOf_go_eq (c : Char) :
    ∀ (l : List Char) (i : Nat),
      jsIndexOf.go c l i =
        (l.findIdx? (fun d => d = c)).elim (-1) (fun k => ((i + k : Nat) : Int)) := by
  intro l
  induction l with
  | nil => intro i; simp [jsIndexOf.go]
  | cons d ds ih =>
    intro i
    simp only [jsIndexOf.go]
    by_cases hd : d = c
    · rw [if_pos hd, List.findIdx?_cons]
      simp [hd]
    · rw [if_neg hd, ih (i + 1), List.findIdx?_cons]
      have hp : decide (d = c) = false := by simp [hd]
      simp only [hp, Bool.false_eq_true, if_false, List.findIdx?_succ]
      rcases hf : ds.findIdx? (fun d => d = c) with _ | k
      · simp [hf]
      · simp only [hf, Option.map_some', Option.elim_some]
        omega

theorem jsIndexOf_eq (l : List Char) (c : Char) :
    jsIndexOf l c = (l.findIdx? (fun d => d = c)).elim (-1) (fun k => (k : Int)) := by
  rw [jsIndexOf, jsIndexOf_go_eq]
  rcases l.findIdx? (fun d => d = c) with _ | k <;> simp

/-- Modelled from the spec's (amended) words: split at the first `=` at
any index, value after it; else a bare lower-cased name. -/
def parseTermSpecEq (qualifier : String) (term : List Char) : SpfMechanism :=
  match term.findIdx? (fun d => d = '=') with
  | some k =>
    .mk (jsToLower (String.mk (term.take k))) qualifier
      (String.mk (term.drop (k + 1))) none
  | none => .mk (jsToLower (String.mk term)) qualifier "" none

/-- Modelled from the spec's words: split at the first `/` at index > 0,
the `/` kept in the value; otherwise fall through to the `=` rule. -/
def parseTermSpecSlash (qualifier : String) (term : List Char) : SpfMechanism :=
  match term.findIdx? (fun d => d = '/') with
  | some j =>
    if 0 < j then
      .mk (jsToLower (String.mk (term.take j))) qualifier
        (String.mk (term.drop j)) none
    else parseTermSpecEq qualifier term
  | none => parseTermSpecEq qualifier term

/-- Modelled from the spec's words: split at the first `:` at index > 0;
otherwise fall through to the `/` rule. -/
def parseTermSpecColon (qualifier : String) (term : List Char) : SpfMechanism :=
  match term.findIdx? (fun d => d = ':') with
  | some i =>
    if 0 < i then
      .mk (jsToLower (String.mk (term.take i))) qualifier
        (String.mk (term.drop (i + 1))) none
    else parseTermSpecSlash qualifier term
  | none => parseTermSpecSlash qualifier term

/-- Modelled from the spec's words (C5, amended): an optional leading
qualifier in `{+,-,~,?}` (default `+`), then the remainder is split at
the first `:` at index > 0; else at the first `/` at index > 0 (the `/`
kept in the value); else at the first `=` at *any* index (including 0);
a token with none of these separators is a bare lower-cased mechanism
name with empty value. -/
def parseTermSpec (part : String) : SpfMechanism :=
  match part.data with
  | c :: cs =>
    if c ∈ ['+', '-', '~', '?'] then
      parseTermSpecColon (String.mk [c]) cs
    else parseTermSpecColon "+" (c :: cs)
  | [] => parseTermSpecColon "+" []

theorem parseTermCore_eq_spec :
    ∀ q term, parseTermCore q term = parseTermSpecColon q term := by
  intro q term
  unfold parseTermCore parseTermSpecColon parseTermSpecSlash parseTermSpecEq
  rw [jsIndexOf_eq, jsIndexOf_eq, jsIndexOf_eq]
  rcases hc : term.findIdx? (fun d => d = ':') with _ | i <;>
    rcases hs : term.findIdx? (fun d => d = '/') with _ | j <;>
      rcases he : term.findIdx? (fun d => d = '=') with _ | k <;>
        simp only [Option.elim_none, Option.elim_some] <;>
          simp only [gt_iff_lt, ge_iff_le, Int.natCast_pos, Int.toNat_natCast,
            show ¬((0 : Int) < -1) from by norm_num,
            show ¬((0 : Int) ≤ -1) from by norm_num,
            show ∀ n : Nat, (0 : Int) ≤ (n : Int) from fun n => Int.natCast_nonneg n,
            if_false, if_true]


theorem parseTerm_eq_spec : ∀ part, parseTerm part = parseTermSpec part := by
  intro part
  unfold parseTerm parseTermSpec
  rcases hd : part.data with _ | ⟨c, cs⟩ <;> dsimp only
  · exact parseTermCore_eq_spec _ _
  · have hiff : (c = '+' || c = '-' || c = '~' || c = '?') = true ↔
        c ∈ ['+', '-', '~', '?'] := by
      simp [or_assoc]
    by_cases hm : c ∈ ['+', '-', '~', '?']
    · rw [if_pos (hiff.mpr hm), if_pos hm]
      exact parseTermCore_eq_spec _ _
    · rw [if_neg (fun hb => hm (hiff.mp hb)), if_neg hm]
      exact parseTermCore_eq_spec _ _

/-- The token loop, characterized: mechanisms are `parseTerm` applied to
the trimmed non-empty tokens in order, and the loop's issues are one
`ptr` deprecation warning per `ptr`-typed mechanism, in order. -/
theorem processParts_eq (parts : List String) :
    (processParts parts).1 =
      ((parts.map jsTrim).filter (fun p => p ≠ "")).map parseTerm ∧
    (processParts parts).2 =
      (((((parts.map jsTrim).filter (fun p => p ≠ "")).map parseTerm).filter
        (fun m => m.type = "ptr")).map (fun _ => ptrWarning)) := by
  induction parts with
  | nil => simp [processParts]
  | cons p rest ih =>
    rcases hrest : processParts rest with ⟨ms, is⟩
    rw [hrest] at ih
    simp only at ih
    by_cases hp : jsTrim p = ""
    · rw [processParts, if_pos hp, hrest]
      constructor
      · simp [List.filter_cons, hp, ih.1]
      · simp [List.filter_cons, hp, ih.2]
    · rw [processParts, if_neg hp, hrest]
      dsimp only
      constructor
      · simp [List.filter_cons, hp, ih.1]
      · by_cases hptr : (parseTerm (jsTrim p)).type = "ptr" <;>
          simp [List.filter_cons, hp, hptr, ih.1, ih.2]


/-- C5 (amended): token parsing.  (1) The source's per-token split (JS
`indexOf`-based) coincides with the declarative rule: qualifier in
`{+,-,~,?}` with default `+`; split at the first `:` at position > 0,
else the first `/` at position > 0 (separator kept in the value), else
the first `=` at *any* position — including position 0, which the
original claim excluded (see the counterexample); tokens with no
separator are bare lower-cased names with empty value.  (2) The token
loop maps this split over the trimmed non-empty tokens in order, and
emits one deprecation warning per `ptr`-typed mechanism.  (3) For a
record with a valid version token, the parsed mechanisms are exactly
this split applied to the tokens after the version token. -/
theorem spf_C5_token_parsing :
    (∀ part, parseTerm part = parseTermSpec part) ∧
    (∀ parts : List String,
      (processParts parts).1 =
        ((parts.map jsTrim).filter (fun p => p ≠ "")).map parseTerm ∧
      (processParts parts).2 =
        (((((parts.map jsTrim).filter (fun p => p ≠ "")).map parseTerm).filter
          (fun m => m.type = "ptr")).map (fun _ => ptrWarning))) ∧
    (∀ record, (parseSpfRecord record).version = some "spf1" →
      (parseSpfRecord record).mechanisms =
        ((((jsTrimSplitWs record).tail.map jsTrim).filter
          (fun p => p ≠ "")).map parseTerm)) := by
  refine ⟨parseTerm_eq_spec, processParts_eq, ?_⟩
  intro record hv
  unfold parseSpfRecord at hv ⊢
  rcases hsplit : jsTrimSplitWs record with _ | ⟨p0, rest⟩
  · rw [hsplit] at hv
    dsimp only at hv
    exact absurd hv (by simp)
  · rw [hsplit] at hv
    dsimp only at hv ⊢
    by_cases hb : jsStartsWith (jsToLower p0) "v=spf1" = false
    · rw [if_pos hb] at hv
      exact absurd hv (by simp)
    · rw [if_neg hb]
      rcases hPP : processParts rest with ⟨ms, is⟩
      dsimp only
      have hme := (processParts_eq rest).1
      rw [hPP] at hme
      exact hme

/-- Witness for C5 (amended): the refinement evaluated at the token
`"=b"`, and the mechanism list of a concrete record with an `a` and a
`ptr` mechanism. -/
theorem spf_C5_token_parsing_witness :
    parseTerm "=b" = parseTermSpec "=b" ∧
    (parseSpfRecord "v=spf1 a ptr").mechanisms =
      ((((jsTrimSplitWs "v=spf1 a ptr").tail.map jsTrim).filter
        (fun p => p ≠ "")).map parseTerm) :=
  ⟨spf_C5_token_parsing.1 "=b",
   spf_C5_token_parsing.2.2 "v=spf1 a ptr" (by rfl)⟩

/-- Counterexample to C5 as stated: the token `=b` has its only
separator `=` at position 0, so under the claim's "first match at
position > 0 wins" rule it would be a bare mechanism named `=b` with
empty value; the code instead splits at the position-0 `=`, producing
an empty type and value `b`. -/
theorem spf_C5_counterexample :
    (parseSpfRecord "v=spf1 =b").mechanisms = [.mk "" "+" "b" none] ∧
    (parseSpfRecord "v=spf1 =b").mechanisms ≠ [.mk "=b" "+" "" none] := by
  refine ⟨rfl, fun h => ?_⟩
  have h1 : (parseSpfRecord "v=spf1 =b").mechanisms
      = [SpfMechanism.mk "" "+" "b" none] := rfl
  have h3 := h1.symm.trans h
  injection h3 with h4 h5
  injection h4 with ht hq hval he
  exact absurd ht (by decide)

/-! ## C6: the rule set -/

theorem recordLengthWarning_head (len : Nat) :
    (recordLengthWarning len).message.data.head? = some 'R' := by
  simp only [recordLengthWarning, String.data_append, List.head?_append]
  rfl

theorem recordLengthWarning_ne (len : Nat) :
    recordLengthWarning len ≠ allNotLastWarning ∧
    recordLengthWarning len ≠ noAllWarning ∧
    recordLengthWarning len ≠ multipleRedirectError ∧
    recordLengthWarning len ≠ redirectAndAllWarning := by
  refine ⟨?_, ?_, ?_, ?_⟩ <;> intro h <;>
    have hh := congrArg (fun i => i.message.data.head?) h <;>
    simp only at hh <;>
    rw [recordLengthWarning_head] at hh <;>
    exact absurd hh (by decide)

theorem findIdx?_eq_none_iff {α : Type} (p : α → Bool) :
    ∀ l : List α, l.findIdx? p = none ↔ ∀ x ∈ l, p x = false := by
  intro l
  induction l with
  | nil => simp
  | cons a as ih =>
    by_cases ha : p a
    · simp [List.findIdx?_cons, ha]
    · simp only [List.findIdx?_cons, ha, Bool.false_eq_true, if_false,
        List.findIdx?_succ, Option.map_eq_none', List.mem_cons]
      constructor
      · intro h x hx
        rcases hx with rfl | hx
        · simpa using ha
        · exact (ih.mp h) x hx
      · intro h
        exact ih.mpr (fun x hx => h x (Or.inr hx))

theorem none_ne_someNat : ∀ j : Nat, ((none : Option Nat) = some j) = False := by
  simp

/-- Membership in the rule-set output, characterized. -/
theorem mem_ruleIssues_iff (record : String) (ms : List SpfMechanism)
    (issue : SpfValidationIssue) :
    issue ∈ ruleIssues record ms ↔
      ((∃ i, ms.findIdx? (fun m => m.type = "all") = some i ∧ i ≠ ms.length - 1) ∧
        issue = allNotLastWarning) ∨
      (ms.findIdx? (fun m => m.type = "all") = none ∧ issue = noAllWarning) ∨
      (1 < (ms.filter (fun m => m.type = "redirect")).length ∧
        issue = multipleRedirectError) ∨
      ((0 < (ms.filter (fun m => m.type = "redirect")).length ∧
        (ms.findIdx? (fun m => m.type = "all")).isSome = true) ∧
        issue = redirectAndAllWarning) ∨
      (255 < record.length ∧ issue = recordLengthWarning record.length) := by
  unfold ruleIssues
  dsimp only
  rcases hA : ms.findIdx? (fun m => m.type = "all") with _ | i <;>
    rw [hA] <;> clear hA <;> dsimp only <;> split_ifs <;>
      simp only [List.mem_append, List.mem_singleton, List.not_mem_nil,
        or_false, false_or, Option.some.injEq, exists_eq_left',
        Bool.and_eq_true, decide_eq_true_eq, Option.isSome_some,
        Option.isSome_none, gt_iff_lt, eq_self_iff_true, and_true, true_and,
        Bool.false_eq_true, and_false, false_and, ne_eq, none_ne_someNat,
        exists_false] at * <;>
      tauto

/-- A 300-character record used to witness the length rule. -/
def rec300 : String := String.mk (List.replicate 300 'a')

/-- C6: the rule set appends issues (never replaces the parser's) such
that: more than one `redirect` yields the multiple-redirect error; a raw
record longer than 255 characters yields a warning naming
`(length + 254) / 255` — which is exactly `ceil(length/255)` — 255-byte
chunks; absence of an `all` mechanism yields a warning; an `all` that is
not last yields a warning; and `redirect` together with `all` yields a
warning. -/
theorem spf_C6_rule_set :
    (∀ (record : String) (ms : List SpfMechanism),
      (multipleRedirectError ∈ ruleIssues record ms ↔
        1 < (ms.filter (fun m => m.type = "redirect")).length) ∧
      multipleRedirectError.type = .error ∧
      (recordLengthWarning record.length ∈ ruleIssues record ms ↔
        255 < record.length) ∧
      (recordLengthWarning record.length).type = .warning ∧
      (noAllWarning ∈ ruleIssues record ms ↔ ∀ m ∈ ms, ¬m.type = "all") ∧
      (allNotLastWarning ∈ ruleIssues record ms ↔
        ∃ i, ms.findIdx? (fun m => m.type = "all") = some i ∧
          i ≠ ms.length - 1) ∧
      (redirectAndAllWarning ∈ ruleIssues record ms ↔
        0 < (ms.filter (fun m => m.type = "redirect")).length ∧
        (ms.findIdx? (fun m => m.type = "all")).isSome = true) ∧
      (255 < record.length →
        255 * (((record.length + 254) / 255) - 1) < record.length ∧
        record.length ≤ 255 * ((record.length + 254) / 255))) ∧
    (∀ s, (parseSpfRecord s).version = some "spf1" →
      ∃ pre, (parseSpfRecord s).issues =
        pre ++ ruleIssues s (parseSpfRecord s).mechanisms) := by
  constructor
  · intro record ms
    obtain ⟨hne1, hne2, hne3, hne4⟩ := recordLengthWarning_ne record.length
    refine ⟨?_, by decide, ?_, by simp [recordLengthWarning], ?_, ?_, ?_, fun h => by omega⟩
    · rw [mem_ruleIssues_iff]
      constructor
      · rintro (⟨-, h⟩ | ⟨-, h⟩ | ⟨hc, -⟩ | ⟨-, h⟩ | ⟨-, h⟩)
        · exact absurd h (by decide)
        · exact absurd h (by decide)
        · exact hc
        · exact absurd h (by decide)
        · exact absurd h.symm hne3
      · intro h
        exact Or.inr (Or.inr (Or.inl ⟨h, rfl⟩))
    · rw [mem_ruleIssues_iff]
      constructor
      · rintro (⟨-, h⟩ | ⟨-, h⟩ | ⟨-, h⟩ | ⟨-, h⟩ | ⟨hc, -⟩)
        · exact absurd h hne1
        · exact absurd h hne2
        · exact absurd h hne3
        · exact absurd h hne4
        · exact hc
      · intro h
        exact Or.inr (Or.inr (Or.inr (Or.inr ⟨h, rfl⟩)))
    · rw [mem_ruleIssues_iff]
      constructor
      · rintro (⟨-, h⟩ | ⟨hc, -⟩ | ⟨-, h⟩ | ⟨-, h⟩ | ⟨-, h⟩)
        · exact absurd h (by decide)
        · rw [findIdx?_eq_none_iff] at hc
          intro m hm
          simpa using hc m hm
        · exact absurd h (by decide)
        · exact absurd h (by decide)
        · exact absurd h.symm hne2
      · intro h
        refine Or.inr (Or.inl ⟨?_, rfl⟩)
        rw [findIdx?_eq_none_iff]
        intro m hm
        simpa using h m hm
    · rw [mem_ruleIssues_iff]
      constructor
      · rintro (⟨hc, -⟩ | ⟨-, h⟩ | ⟨-, h⟩ | ⟨-, h⟩ | ⟨-, h⟩)
        · exact hc
        · exact absurd h (by decide)
        · exact absurd h (by decide)
        · exact absurd h (by decide)
        · exact absurd h.symm hne1
      · intro h
        exact Or.inl ⟨h, rfl⟩
    · rw [mem_ruleIssues_iff]
      constructor
      · rintro (⟨-, h⟩ | ⟨-, h⟩ | ⟨-, h⟩ | ⟨hc, -⟩ | ⟨-, h⟩)
        · exact absurd h (by decide)
        · exact absurd h (by decide)
        · exact absurd h (by decide)
        · exact hc
        · exact absurd h.symm hne4
      · intro h
        exact Or.inr (Or.inr (Or.inr (Or.inl ⟨h, rfl⟩)))
  · intro s hv
    unfold parseSpfRecord at hv ⊢
    rcases hsplit : jsTrimSplitWs s with _ | ⟨p0, rest⟩
    · rw [hsplit] at hv
      dsimp only at hv
      exact absurd hv (by simp)
    · rw [hsplit] at hv
      dsimp only at hv ⊢
      by_cases hb : jsStartsWith (jsToLower p0) "v=spf1" = false
      · rw [if_pos hb] at hv
        exact absurd hv (by simp)
      · rw [if_neg hb]
        rcases hPP : processParts rest with ⟨ms0, is0⟩
        dsimp only
        exact ⟨is0, rfl⟩

set_option maxRecDepth 4000 in
/-- Witness for C6: a double-redirect list triggers the error; a parsed
record's rule issues are appended to the parser's; the length formula is
the ceiling at a 300-character record. -/
theorem spf_C6_rule_set_witness :
    multipleRedirectError ∈ ruleIssues "x"
      [SpfMechanism.mk "redirect" "+" "a" none,
        SpfMechanism.mk "redirect" "+" "b" none] ∧
    (∃ pre, (parseSpfRecord "v=spf1 a").issues =
      pre ++ ruleIssues "v=spf1 a" (parseSpfRecord "v=spf1 a").mechanisms) ∧
    (255 * (((rec300.length + 254) / 255) - 1) < rec300.length ∧
      rec300.length ≤ 255 * ((rec300.length + 254) / 255)) :=
  ⟨(spf_C6_rule_set.1 "x" _).1.mpr (by decide),
   spf_C6_rule_set.2 "v=spf1 a" (by rfl),
   (spf_C6_rule_set.1 rec300 []).2.2.2.2.2.2.2 (by decide)⟩

/-! ## C7: resolver fallback chain -/

/-- C7: `resolveTxt` behavior.  (1) A non-native resolver choice calls
that backend directly.  (2) If the native race settles successfully its
records are returned with no fallback attempted.  (3) On race timeout or
failure, the fallback chain is consulted.  (4) The fallback chain tries
each backend once, in order: with every backend before `b` failing and
`b` succeeding, the result is `b`'s records, the backends after `b` are
never attempted, and each earlier backend was attempted exactly once
(the attempt trace is exactly the prefix up to `b`).  (5) If every
backend fails, the chain fails with the error of the *last* backend,
having attempted each exactly once.  (6) With no fallback configured,
the aggregate "All DNS resolvers failed" error is raised. -/
theorem spf_C7_resolver_fallback :
    (∀ (backends : Backends) (race : Except String (List String))
        (r : ResolverType) (fb : List ResolverType) (domain : String),
      r ≠ .native →
      resolveTxt backends race r fb domain = (backends r domain, [r])) ∧
    (∀ (backends : Backends) (recs : List String) (fb : List ResolverType)
        (domain : String),
      resolveTxt backends (.ok recs) .native fb domain = (.ok recs, [])) ∧
    (∀ (backends : Backends) (e : String) (fb : List ResolverType)
        (domain : String),
      resolveTxt backends (.error e) .native fb domain =
        resolveTxtFallback backends domain fb none) ∧
    (∀ (backends : Backends) (domain : String) (pre : List ResolverType)
        (b : ResolverType) (post : List ResolverType) (recs : List String)
        (last : Option String),
      (∀ x ∈ pre, ∃ err, backends x domain = .error err) →
      backends b domain = .ok recs →
      resolveTxtFallback backends domain (pre ++ b :: post) last =
        (.ok recs, pre ++ [b])) ∧
    (∀ (backends : Backends) (domain : String) (fb : List ResolverType)
        (b : ResolverType) (e : String) (last : Option String),
      (∀ x ∈ fb, ∃ err, backends x domain = .error err) →
      backends b domain = .error e →
      resolveTxtFallback backends domain (fb ++ [b]) last =
        (.error e, fb ++ [b])) ∧
    (∀ (backends : Backends) (domain : String) (last : Option String),
      resolveTxtFallback backends domain [] last =
        (.error (last.getD "All DNS resolvers failed"), [])) := by
  refine ⟨?_, ?_, ?_, ?_, ?_, ?_⟩
  · intro backends race r fb domain hr
    unfold resolveTxt
    rw [if_pos hr]
  · intro backends recs fb domain
    unfold resolveTxt
    rw [if_neg (by simp)]
  · intro backends e fb domain
    unfold resolveTxt
    rw [if_neg (by simp)]
  · intro backends domain pre
    induction pre with
    | nil =>
      intro b post recs last _ hb
      simp [resolveTxtFallback, hb]
    | cons x pre' ih =>
      intro b post recs last hpre hb
      obtain ⟨err, herr⟩ := hpre x (by simp)
      have := ih b post recs (some err) (fun y hy => hpre y (by simp [hy])) hb
      simp [resolveTxtFallback, herr, this]
  · intro backends domain fb
    induction fb with
    | nil =>
      intro b e last _ hb
      simp [resolveTxtFallback, hb]
    | cons x fb' ih =>
      intro b e last hfb hb
      obtain ⟨err, herr⟩ := hfb x (by simp)
      have := ih b e (some err) (fun y hy => hfb y (by simp [hy])) hb
      simp [resolveTxtFallback, herr, this]
  · intro backends domain last
    simp [resolveTxtFallback]

/-- Concrete backends: native and Google fail, Cloudflare succeeds. -/
def backendsW : Backends := fun r _ =>
  match r with
  | .native => .error "connection refused"
  | .google => .error "google down"
  | .cloudflare => .ok ["v=spf1 -all"]

/-- Witness for C7: with the native race timing out, Google failing and
Cloudflare succeeding, the chain returns Cloudflare's records having
attempted exactly Google then Cloudflare. -/
theorem spf_C7_resolver_fallback_witness :
    resolveTxt backendsW (.error "DNS timeout") .native [.google, .cloudflare]
      "example.com" = (.ok ["v=spf1 -all"], [.google, .cloudflare]) := by
  rw [spf_C7_resolver_fallback.2.2.1 backendsW "DNS timeout"
    [.google, .cloudflare] "example.com"]
  have := spf_C7_resolver_fallback.2.2.2.1 backendsW "example.com"
    [.google] .cloudflare [] ["v=spf1 -all"] none
    (by
      intro x hx
      simp only [List.mem_singleton] at hx
      subst hx
      exact ⟨"google down", rfl⟩)
    (by rfl)
  simpa using this

/-! ## C8: determinism and purity of parse + rule set -/

/-- A sequence of parser invocations, modelling "prior calls": the
parser threads no state, so a call's output is a function of its input
string alone. -/
def runParseCalls (inputs : List String) : List ParseOutput :=
  inputs.map parseSpfRecord

/-- C8: `parseSpfRecord` (which includes the rule-set evaluation) is
deterministic and pure: equal inputs give equal outputs, and within any
sequence of calls — whatever came before or after — two calls on the
same string produce identical results.  Purity holds by construction:
the embedding is a total function of the input string with no other
parameters. -/
theorem spf_C8_parse_deterministic :
    (∀ s t : String, s = t → parseSpfRecord s = parseSpfRecord t) ∧
    (∀ (inputs : List String) (i j : Nat) (a b : String),
      inputs[i]? = some a → inputs[j]? = some b → a = b →
      (runParseCalls inputs)[i]? = (runParseCalls inputs)[j]?) := by
  constructor
  · intro s t h
    rw [h]
  · intro inputs i j a b hi hj hab
    subst hab
    simp [runParseCalls, List.getElem?_map, hi, hj]

/-- Witness for C8: two identical calls inside one call sequence. -/
theorem spf_C8_parse_deterministic_witness :
    (runParseCalls ["v=spf1 -all", "spf1", "v=spf1 -all"])[0]? =
      (runParseCalls ["v=spf1 -all", "spf1", "v=spf1 -all"])[2]? :=
  spf_C8_parse_deterministic.2 ["v=spf1 -all", "spf1", "v=spf1 -all"]
    0 2 "v=spf1 -all" "v=spf1 -all" (by rfl) (by rfl) rfl

/-! ## C9: handler input validation and the no-record success case -/

/-- C9 (amended): the handler responds 400 exactly when the `domain`
query parameter is missing, is the empty string, or — after trimming
and lower-casing — fails `^[a-z0-9][a-z0-9.-]*[a-z0-9]$` *and* has
length greater than 1 (so every domain of length ≤ 1 after trimming
bypasses the pattern check, including the whitespace-only domain that
trims to the empty string — see the counterexample); every other
request gets status 200.  No `resolver` parameter is read: the handler
ignores it entirely rather than restricting it to an enumerated set.  A
domain with no SPF record is not an error: the response is a 200
success whose result has a null record and a single error issue
explaining why. -/
theorem spf_C9_handler :
    (∀ (dns : DnsOracle) (fuel : Nat) (params : List (String × String)),
      ((handleGET dns fuel params).status = 400 ↔
        ((params.find? (fun p => p.1 = "domain")).map Prod.snd = none ∨
         (params.find? (fun p => p.1 = "domain")).map Prod.snd = some "" ∨
         (∃ d, (params.find? (fun p => p.1 = "domain")).map Prod.snd = some d ∧
           d ≠ "" ∧ matchesDomainRe (jsToLower (jsTrim d)) = false ∧
           1 < (jsToLower (jsTrim d)).length))) ∧
      ((handleGET dns fuel params).status = 200 ∨
        (handleGET dns fuel params).status = 400)) ∧
    (∀ (dns : DnsOracle) (fuel : Nat) (d : String),
      fuel ≠ 0 →
      (dns (jsToLower (jsTrim d))).record = none →
      d ≠ "" →
      ¬(matchesDomainRe (jsToLower (jsTrim d)) = false ∧
        1 < (jsToLower (jsTrim d)).length) →
      ∃ res msg,
        handleGET dns fuel [("domain", d)] = ⟨200, true, some res, none⟩ ∧
        res.record = none ∧ res.issues = [⟨.error, msg⟩]) := by
  constructor
  · intro dns fuel params
    unfold handleGET
    rcases hfind : (params.find? (fun p => p.1 = "domain")).map Prod.snd
        with _ | d <;> rw [hfind] <;> dsimp only
    · exact ⟨by simp, Or.inr rfl⟩
    · by_cases hd : d = ""
      · subst hd
        rw [if_pos rfl]
        exact ⟨by simp, Or.inr rfl⟩
      · rw [if_neg hd]
        have hcond : ((decide (matchesDomainRe (jsToLower (jsTrim d)) = false) &&
            decide ((jsToLower (jsTrim d)).length > 1)) = true) ↔
            (matchesDomainRe (jsToLower (jsTrim d)) = false ∧
             1 < (jsToLower (jsTrim d)).length) := by
          simp [gt_iff_lt]
        by_cases hpat : matchesDomainRe (jsToLower (jsTrim d)) = false ∧
            1 < (jsToLower (jsTrim d)).length
        · rw [if_pos (hcond.mpr hpat)]
          refine ⟨?_, Or.inr rfl⟩
          constructor
          · intro _
            exact Or.inr (Or.inr ⟨d, rfl, hd, hpat.1, hpat.2⟩)
          · intro _
            rfl
        · rw [if_neg (fun hc => hpat (hcond.mp hc))]
          refine ⟨?_, Or.inl rfl⟩
          constructor
          · intro h
            exact absurd (show (200 : Nat) = 400 from h) (by decide)
          · rintro (h | h | ⟨d', hd', hne, hf1, hf2⟩)
            · exact absurd h (by simp)
            · injection h with h
              exact absurd h hd
            · injection hd' with h
              subst h
              exact absurd ⟨hf1, hf2⟩ hpat
  · intro dns fuel d hfuel hrec hd hpat
    unfold handleGET
    have hfind : ([("domain", d)].find? (fun p => p.1 = "domain")).map Prod.snd
        = some d := by simp [List.find?]
    rw [hfind]
    dsimp only
    have hcond : ((decide (matchesDomainRe (jsToLower (jsTrim d)) = false) &&
        decide ((jsToLower (jsTrim d)).length > 1)) = true) ↔
        (matchesDomainRe (jsToLower (jsTrim d)) = false ∧
         1 < (jsToLower (jsTrim d)).length) := by
      simp [gt_iff_lt]
    rw [if_neg hd, if_neg (fun hc => hpat (hcond.mp hc))]
    rcases fuel with _ | f
    · exact absurd rfl hfuel
    · simp only [lookupSpf]
      rw [hrec]
      dsimp only
      refine ⟨noRecordResult (jsToLower (jsTrim d))
          ⟨0, MAX_DNS_LOOKUPS, [jsToLower (jsTrim d)]⟩
          (dns (jsToLower (jsTrim d))).error,
        noRecordMessage (jsToLower (jsTrim d)) (dns (jsToLower (jsTrim d))).error,
        ?_, by simp [noRecordResult, SpfResult.record],
        by simp [noRecordResult, SpfResult.issues]⟩
      rw [if_neg (show ¬((noRecordResult (jsToLower (jsTrim d))
          ⟨0, MAX_DNS_LOOKUPS, [jsToLower (jsTrim d)]⟩
          (dns (jsToLower (jsTrim d))).error).lookupCount > MAX_DNS_LOOKUPS) from
        by simp [noRecordResult, SpfResult.lookupCount, MAX_DNS_LOOKUPS])]

/-- Witness for C9 (amended): a missing domain is a 400; a well-formed
domain with no SPF record anywhere is a 200 success with a null record
and one explanatory error issue. -/
theorem spf_C9_handler_witness :
    ((handleGET dnsNone 1 [("other", "x")]).status = 400 ↔
      (([("other", "x")].find? (fun p => p.1 = "domain")).map Prod.snd = none ∨
       (([("other", "x")].find? (fun p => p.1 = "domain")).map Prod.snd = some "" ∨
       (∃ d, ([("other", "x")].find? (fun p => p.1 = "domain")).map Prod.snd
            = some d ∧
         d ≠ "" ∧ matchesDomainRe (jsToLower (jsTrim d)) = false ∧
         1 < (jsToLower (jsTrim d)).length)))) ∧
    (∃ res msg,
      handleGET dnsNone 1 [("domain", "example.com")] = ⟨200, true, some res, none⟩ ∧
      res.record = none ∧ res.issues = [⟨.error, msg⟩]) :=
  ⟨(spf_C9_handler.1 dnsNone 1 [("other", "x")]).1,
   spf_C9_handler.2 dnsNone 1 "example.com" (by decide) (by rfl) (by decide)
     (by decide)⟩

/-- Counterexample to C9 as stated: the whitespace-only domain `" "`
trims to the empty string, which fails the pattern but has length 0 —
not 1 — so it is *not* rejected: the handler proceeds and answers 200;
and a request carrying `resolver=bogus` (outside any enumerated set) is
not rejected either, because the handler never reads a resolver
parameter. -/
theorem spf_C9_counterexample :
    (handleGET dnsNone 1 [("domain", " ")]).status = 200 ∧
    ¬((200 : Nat) = 400) ∧
    (handleGET dnsNone 1
      [("domain", "example.com"), ("resolver", "bogus")]).status = 200 :=
  ⟨rfl, by decide, rfl⟩

/-! ## C10: the "Empty SPF record" branch is dead code -/

theorem jsTrimSplitWs_ne_nil : ∀ s, jsTrimSplitWs s ≠ [] := by
  intro s
  unfold jsTrimSplitWs
  dsimp only
  split
  · simp
  · rename_i hne
    simpa [List.isEmpty_iff] using hne

theorem invalidVersionMessage_head (p : String) :
    (invalidVersionMessage p).data.head? = some 'I' := by
  simp only [invalidVersionMessage, String.data_append, List.head?_append]
  rfl

/-- C10: the parser's "Empty SPF record" branch is unreachable.
Splitting the trimmed record on whitespace always yields at least one
(possibly empty) token, so for *every* input string the issue list
`[{error, "Empty SPF record"}]` is never returned; the empty string
instead takes the invalid-version path. -/
theorem spf_C10_empty_branch_unreachable :
    (∀ s, jsTrimSplitWs s ≠ []) ∧
    (∀ s, (parseSpfRecord s).issues ≠
      [⟨IssueType.error, "Empty SPF record"⟩]) ∧
    ((parseSpfRecord "").version = none ∧
      (parseSpfRecord "").issues = [⟨IssueType.error, invalidVersionMessage ""⟩]) := by
  refine ⟨jsTrimSplitWs_ne_nil, ?_, by constructor <;> rfl⟩
  intro s h
  unfold parseSpfRecord at h
  rcases hsplit : jsTrimSplitWs s with _ | ⟨p0, rest⟩
  · exact jsTrimSplitWs_ne_nil s hsplit
  · rw [hsplit] at h
    dsimp only at h
    split at h
    · injection h with h1 h2
      have hmsg := congrArg SpfValidationIssue.message h1
      simp only at hmsg
      have hhead := congrArg (fun m => m.data.head?) hmsg
      simp only at hhead
      rw [invalidVersionMessage_head] at hhead
      exact absurd hhead (by decide)
    · rcases hPP : processParts rest with ⟨ms0, is0⟩
      rw [hPP] at h
      dsimp only at h
      have hmem : (⟨IssueType.error, "Empty SPF record"⟩ : SpfValidationIssue)
          ∈ is0 ++ ruleIssues s ms0 := by
        rw [h]
        simp
      rcases List.mem_append.mp hmem with hmem | hmem
      · have his := (processParts_eq rest).2
        rw [hPP] at his
        simp only at his
        rw [his] at hmem
        rcases List.mem_map.mp hmem with ⟨x, -, hx⟩
        exact absurd hx.symm (by decide)
      · rcases (mem_ruleIssues_iff s ms0 _).mp hmem with
          ⟨-, hx⟩ | ⟨-, hx⟩ | ⟨-, hx⟩ | ⟨-, hx⟩ | ⟨-, hx⟩
        · exact absurd hx (by decide)
        · exact absurd hx (by decide)
        · exact absurd hx (by decide)
        · exact absurd hx (by decide)
        · have hhead := congrArg (fun i => i.message.data.head?) hx
          simp only at hhead
          rw [recordLengthWarning_head] at hhead
          exact absurd hhead (by decide)

/-- Witness for C10: instantiation at concrete inputs. -/
theorem spf_C10_empty_branch_unreachable_witness :
    jsTrimSplitWs "" ≠ [] ∧
    (parseSpfRecord " ").issues ≠ [⟨IssueType.error, "Empty SPF record"⟩] :=
  ⟨spf_C10_empty_branch_unreachable.1 "",
   spf_C10_empty_branch_unreachable.2.1 " "⟩
